import Mathlib

/-!
Shallow embedding of the retrieval-and-grounding pipeline
(task1-Knowledge-Retrieval) and verification of its specification.

Source modules embedded below:
- src/pdf_processor.py  (chunking with page-provenance tracking)
- src/embeddings.py     (single and batched embedding calls, retry policy)
- src/config.py         (environment validation)
- src/rag_pipeline.py   (query orchestration, confidence heuristic)
- src/search_client.py  (index document construction)
- app.py                (startup validation gate)

External collaborators (PDF extraction backends, the text splitter
library, the embedding/completion providers, the search index service,
the retry decorator library) are modelled as explicit parameters, or,
where a claim depends on their behaviour, as definitions modelled from
the specification text and marked as such.
-/

/-! ### Data model: src/pdf_processor.py -/

/-- DocumentChunk dataclass (pdf_processor.py lines 12-21).
Text content is represented as `List Char`. -/
structure DocumentChunk where
  chunk_id : String
  content : List Char
  page_numbers : List Nat
  section_title : Option String
  chunk_index : Nat
  total_chunks : Nat
deriving DecidableEq

/-- Python `f"chunk_{i:04d}"` (pdf_processor.py line 136): the ordinal
zero-padded to at least four digits. -/
def chunkId (i : Nat) : String :=
  let s := toString i
  ("chunk_" ++ String.mk (List.replicate (4 - s.length) '0') ++ s)

/-- Python `full_text.find(chunk_text, char_pos)` (pdf_processor.py
line 124): index of the first occurrence of `needle` in `hay` at a
position `≥ start`, or `none` when there is no such occurrence
(Python returns -1; the -1 fallback is applied at the call site). -/
def findFrom (hay needle : List Char) (start : Nat) : Option Nat :=
  (List.range (hay.length + 1)).find? fun i =>
    decide (start ≤ i) && needle.isPrefixOf (hay.drop i)

/-- The page-boundary accumulation loop (pdf_processor.py lines
106-115): concatenate non-empty page texts followed by a paragraph
break, recording for each the half-open range it occupies in the
buffer. `acc` is the buffer built so far; returns the final buffer and
the boundary entries `(start_char, end_char, page_num)` in page
order. -/
def buildB : List (Nat × List Char) → List Char → List Char × List (Nat × Nat × Nat)
  | [], acc => (acc, [])
  | (page_num, text) :: rest, acc =>
    if text.isEmpty then buildB rest acc
    else
      let acc2 := acc ++ text ++ ['\n', '\n']
      let r := buildB rest acc2
      (r.1, (acc.length, acc2.length, page_num) :: r.2)

/-- The combined buffer and page-boundary table of a document
(pdf_processor.py lines 106-115), starting from the empty buffer. -/
def buildBoundaries (pages : List (Nat × List Char)) : List Char × List (Nat × Nat × Nat) :=
  buildB pages []

/-- The located half-open spans of the split chunks (pdf_processor.py
lines 122-127 and 144): each chunk is searched for from the running
cursor `char_pos`, defaulting to `char_pos` when not found, and the
cursor then advances to one past the located start. -/
def locateSpans (fullText : List Char) : List (List Char) → Nat → List (Nat × Nat)
  | [], _ => []
  | ct :: rest, charPos =>
    let chunkStart := (findFrom fullText ct charPos).getD charPos
    (chunkStart, chunkStart + ct.length) :: locateSpans fullText rest (chunkStart + 1)

/-- The chunk emission loop (pdf_processor.py lines 122-144): locate
each chunk text in the buffer, collect the pages whose boundary range
intersects the located span (`chunk_start < end and chunk_end >
start`), defaulting to `[1]` when no page matches, and emit the chunk
with its ordinal metadata. -/
def emitChunks (fullText : List Char) (boundaries : List (Nat × Nat × Nat)) (total : Nat) :
    List (List Char) → Nat → Nat → List DocumentChunk
  | [], _, _ => []
  | ct :: rest, i, charPos =>
    let chunkStart := (findFrom fullText ct charPos).getD charPos
    let chunkEnd := chunkStart + ct.length
    let chunkPages :=
      (boundaries.filter fun b => decide (chunkStart < b.2.1 ∧ b.1 < chunkEnd)).map
        fun b => b.2.2
    { chunk_id := chunkId i
      content := ct
      page_numbers := if chunkPages = [] then [1] else chunkPages
      section_title := none
      chunk_index := i
      total_chunks := total } :: emitChunks fullText boundaries total rest (i + 1) (chunkStart + 1)

/-- PDFProcessor.chunk_document (pdf_processor.py lines 94-144),
parameterized by the text splitter `split` (the external
RecursiveCharacterTextSplitter) and by the extracted `pages` (the
result of extract_with_fallback). -/
def PDFProcessor.chunk_document (split : List Char → List (List Char))
    (pages : List (Nat × List Char)) : List DocumentChunk :=
  let ft := (buildBoundaries pages).1
  let chunks := split ft
  emitChunks ft (buildBoundaries pages).2 chunks.length chunks 0 0

/-- Follows the claim wording (C3): the page numbers assigned to a
chunk with located span `sp` are exactly the pages of the boundary
entries whose half-open range intersects the span
(`chunk_start < page_end and chunk_end > page_start`), in table
order, defaulting to `[1]` when no page matches. -/
def specPageNumbers (boundaries : List (Nat × Nat × Nat)) (sp : Nat × Nat) : List Nat :=
  let ps := (boundaries.filter fun b => decide (sp.1 < b.2.1 ∧ b.1 < sp.2)).map fun b => b.2.2
  if ps = [] then [1] else ps

/-! ### Spec-modelled text splitter

The splitter used by the repository is the external
RecursiveCharacterTextSplitter library object (pdf_processor.py lines
36-41), whose code is not part of the repository. The model below is
written from the specification text (section 4.1 step 2). -/

/-- Modelled from the spec: the separator priority of a break position,
from the splitter configuration `["\n\n", "\n", ". ", " ", ""]`
(pdf_processor.py line 40): paragraph breaks are preferred, then line
breaks, then sentence-ending periods, then spaces; `0` means no
boundary at this position. -/
def sepRank (s : List Char) (k : Nat) : Nat :=
  if ['\n', '\n'].isPrefixOf (s.drop k) then 4
  else if ['\n'].isPrefixOf (s.drop k) then 3
  else if ['.', ' '].isPrefixOf (s.drop k) then 2
  else if [' '].isPrefixOf (s.drop k) then 1
  else 0

/-- Modelled from the spec: the largest position `k ≤ limit`, `k > 0`,
whose separator priority is exactly `r`, if any. -/
def lastPosWithRank (s : List Char) (limit r : Nat) : Option Nat :=
  ((List.range (limit + 1)).filter fun k => decide (0 < k) && decide (sepRank s k = r)).getLast?

/-- Modelled from the spec: the cut position for the next segment — the
largest available boundary of the highest available priority that
keeps the segment within `chunkSize`, with a hard character cut at
`chunkSize` as last resort (section 4.1 step 2). -/
def bestCutRaw (chunkSize : Nat) (s : List Char) : Nat :=
  match lastPosWithRank s chunkSize 4 with
  | some k => k
  | none =>
    match lastPosWithRank s chunkSize 3 with
    | some k => k
    | none =>
      match lastPosWithRank s chunkSize 2 with
      | some k => k
      | none =>
        match lastPosWithRank s chunkSize 1 with
        | some k => k
        | none => chunkSize

/-- Modelled from the spec: the chosen cut never exceeds the target
chunk size. -/
def bestCut (chunkSize : Nat) (s : List Char) : Nat :=
  min (bestCutRaw chunkSize s) chunkSize

/-- Modelled from the spec: one splitting step per unit of fuel. A text
no longer than `chunkSize` is emitted whole; otherwise the segment up
to the best cut is emitted and splitting continues `overlap`
characters before the cut (at least one character forward), so that
consecutive segments overlap (section 4.1 step 2). The fuel argument
makes the recursion structural; `splitSpec` supplies enough fuel. -/
def splitSpecGo (chunkSize overlap : Nat) : Nat → List Char → List (List Char)
  | _, [] => []
  | 0, _ :: _ => []
  | fuel + 1, c :: cs =>
    let s := c :: cs
    if s.length ≤ chunkSize then [s]
    else
      let k := bestCut chunkSize s
      s.take k :: splitSpecGo chunkSize overlap fuel (s.drop (max 1 (k - overlap)))

/-- Modelled from the spec: the recursive separator-priority text
splitter with overlapping size-bounded segments (section 4.1 step 2),
standing in for the external RecursiveCharacterTextSplitter configured
in pdf_processor.py lines 36-41. -/
def splitSpec (chunkSize overlap : Nat) (s : List Char) : List (List Char) :=
  splitSpecGo chunkSize overlap s.length s

/-! ### src/embeddings.py -/

/-- The batched embedding loop of
EmbeddingsClient.get_embeddings_batch (embeddings.py lines 72-83), one
unit of fuel per iteration. The provider (`self.client.embeddings.create`)
is a parameter indexed by the running invocation count, returning
`none` when the call raises (which aborts the loop and propagates).
The result pairs the collected embeddings (or `none` on a raised
call) with the number of provider invocations made. The fuel argument
makes the recursion structural; `get_embeddings_batch` supplies enough
fuel. -/
def gebGo {E : Type} (provider : Nat → List String → Option (List E)) (batchSize : Nat) :
    Nat → List String → Nat → Option (List E) × Nat
  | _, [], _ => (some [], 0)
  | 0, _ :: _, _ => (none, 0)
  | fuel + 1, t :: ts, callIdx =>
    let texts := t :: ts
    match provider callIdx (texts.take batchSize) with
    | none => (none, 1)
    | some es =>
      let r := gebGo provider batchSize fuel (texts.drop batchSize) (callIdx + 1)
      (r.1.map fun tail => es ++ tail, r.2 + 1)

/-- EmbeddingsClient.get_embeddings_batch (embeddings.py lines 58-83):
slices `texts` into sub-batches of `batchSize` and issues one provider
call per sub-batch, concatenating the returned embeddings in order.
A zero batch size raises in Python (`range` with step 0); it is
modelled as a failed call with no provider invocation. -/
def EmbeddingsClient.get_embeddings_batch {E : Type}
    (provider : Nat → List String → Option (List E))
    (texts : List String) (batchSize : Nat) (callIdx : Nat) : Option (List E) × Nat :=
  if batchSize = 0 then (none, 0)
  else gebGo provider batchSize texts.length texts callIdx

/-- Modelled from the spec: the wait computed by the external retry
decorator configuration `wait_exponential(multiplier=1, min=2, max=10)`
(embeddings.py line 41) before the attempt after `attempt`:
`multiplier * 2^(attempt-1)` clamped into `[minW, maxW]` (section 6:
exponential backoff bounded to a 2-10 second window). -/
def waitExponential (multiplier minW maxW : ℚ) (attempt : Nat) : ℚ :=
  max minW (min (multiplier * 2 ^ (attempt - 1)) maxW)

/-- Modelled from the spec: the retry loop of the external decorator
`retry(stop=stop_after_attempt(3), wait=wait_exponential(...))`
(embeddings.py lines 39-42). `call attempt` is the outcome of the
numbered attempt (`none` = transient failure); `remaining` attempts
may still be made. Returns the final outcome and the list of waits
performed between attempts; exhausting all attempts surfaces the
failure (`none`). -/
def retryGo {A : Type} (call : Nat → Option A) : Nat → Nat → Option A × List ℚ
  | 0, _ => (none, [])
  | remaining + 1, attempt =>
    match call attempt with
    | some a => (some a, [])
    | none =>
      if remaining = 0 then (none, [])
      else
        let r := retryGo call remaining (attempt + 1)
        (r.1, waitExponential 1 2 10 attempt :: r.2)

/-- Modelled from the spec: a retried call starting at attempt 1 with
at most `maxAttempts` attempts. -/
def retryCall {A : Type} (maxAttempts : Nat) (call : Nat → Option A) : Option A × List ℚ :=
  retryGo call maxAttempts 1

/-- EmbeddingsClient.get_embedding (embeddings.py lines 39-56): a
single-text embedding call wrapped in the retry decorator with
`stop_after_attempt(3)`. -/
def EmbeddingsClient.get_embedding {A : Type} (call : Nat → Option A) : Option A × List ℚ :=
  retryCall 3 call

/-! ### src/config.py -/

/-- The required environment variables and their descriptions
(config.py lines 77-83). -/
def required_vars : List (String × String) :=
  [("AZURE_OPENAI_ENDPOINT", "Azure OpenAI endpoint URL"),
   ("AZURE_OPENAI_EMBEDDING_DEPLOYMENT", "Azure OpenAI embedding model deployment name"),
   ("AZURE_OPENAI_CHAT_DEPLOYMENT", "Azure OpenAI chat model deployment name"),
   ("AZURE_SEARCH_ENDPOINT", "Azure AI Search endpoint URL"),
   ("AZURE_SEARCH_API_KEY", "Azure AI Search API key")]

/-- validate_config (config.py lines 68-89). The environment is
`env : String → Option String` (`os.getenv`); Python appends an error
whenever `not os.getenv(var_name)` holds, which is the case both when
the variable is unset (`None`) and when it is set to the empty string,
i.e. exactly when `(env v).getD ("") = ""`. Errors are accumulated over
the whole list of required variables. -/
def validate_config (env : String → Option String) : List String :=
  required_vars.foldl
    (fun errors p =>
      if (env p.1).getD ("") = "" then errors ++ ["Missing " ++ p.1 ++ ": " ++ p.2]
      else errors)
    []

/-- load_pipeline (app.py lines 25-35): validate_config runs first and
a non-empty error list blocks construction of the pipeline (no service
client is created); otherwise the pipeline is constructed. -/
def load_pipeline (env : String → Option String) : Except (List String) Unit :=
  if validate_config env = [] then Except.ok () else Except.error (validate_config env)

/-! ### src/rag_pipeline.py -/

/-- One element of the retrieval result list produced by
SearchService.hybrid_search (search_client.py lines 198-207). The
relevance score is modelled as a rational number. -/
structure RetrievedMatch where
  chunk_id : String
  content : String
  page_numbers : List Nat
  section_title : String
  score : ℚ
deriving DecidableEq

/-- One source citation of the response (rag_pipeline.py lines
156-163); the field `sectionLabel` models the `"section"` dictionary
key (`section` is a reserved word in Lean). -/
structure SourceCitation where
  pages : List Nat
  sectionLabel : String
  relevance_score : ℚ
deriving DecidableEq

/-- RAGResponse dataclass (rag_pipeline.py lines 31-37). -/
structure RAGResponse where
  answer : String
  sources : List SourceCitation
  confidence : String
deriving DecidableEq

/-- RAGPipeline.format_context (rag_pipeline.py lines 89-107): one
labelled block per match, in order, joined by a separator line. -/
def RAGPipeline.format_context (chunks : List RetrievedMatch) : String :=
  String.intercalate ("\n---\n") <| chunks.enum.map fun p =>
    let pages := String.intercalate (", ") (p.2.page_numbers.map toString)
    let sectionStr := if p.2.section_title = "" then "" else " (" ++ p.2.section_title ++ ")"
    ("[Source " ++ toString (p.1 + 1) ++ " - Page " ++ pages ++ sectionStr ++ "]\n"
      ++ p.2.content ++ "\n")

/-- The fixed not-found answer of RAGPipeline.query (rag_pipeline.py
line 144). -/
def notFoundAnswer : String :=
  "I couldn't find relevant information in the documentation to answer your question. Please try rephrasing or ask about a different topic related to the T-Mobile 5G Gateway."

/-- RAGPipeline.query (rag_pipeline.py lines 130-180), parameterized by
the retrieval result `chunks` (the value of `self.retrieve(user_query)`)
and by the generation service `generate` (taking the user query and
the formatted context, rag_pipeline.py lines 109-128). The second
component counts invocations of the generation service. Thresholds
0.03 and 0.02 (lines 169-171) are `mkRat 3 100` and `mkRat 2 100`. -/
def RAGPipeline.query (generate : String → String → String) (userQuery : String)
    (chunks : List RetrievedMatch) : RAGResponse × Nat :=
  if chunks.isEmpty then
    ({ answer := notFoundAnswer, sources := [], confidence := "low" }, 0)
  else
    let context := RAGPipeline.format_context chunks
    let answer := generate userQuery context
    let sources := chunks.map fun c =>
      { pages := c.page_numbers, sectionLabel := c.section_title,
        relevance_score := c.score : SourceCitation }
    let topScore : ℚ := ((chunks.head?.map fun c => c.score).getD 0)
    let confidence :=
      if topScore > mkRat 3 100 then "high"
      else if topScore > mkRat 2 100 then "medium"
      else "low"
    ({ answer := answer, sources := sources, confidence := confidence }, 1)

/-! ### src/search_client.py -/

/-- One document uploaded to the search index by
SearchService.index_chunks (search_client.py lines 150-161); the
embedding type is a parameter. -/
structure IndexDoc (E : Type) where
  chunk_id : String
  content : List Char
  content_vector : E
  page_numbers : List Nat
  section_title : String
  chunk_index : Nat
  document_name : String
  indexed_at : String

/-- SearchService.index_chunks (search_client.py lines 134-161):
chunks and embeddings are zipped by position and turned into index
documents; `chunk.section_title or ""` maps a missing section title to
the empty string (and is the identity on present strings, the empty
string included), i.e. `Option.getD ... ""`. -/
def SearchService.index_chunks {E : Type} (chunks : List DocumentChunk)
    (embeddings : List E) (document_name : String) (timestamp : String) : List (IndexDoc E) :=
  (chunks.zip embeddings).map fun p =>
    { chunk_id := p.1.chunk_id
      content := p.1.content
      content_vector := p.2
      page_numbers := p.1.page_numbers
      section_title := p.1.section_title.getD ("")
      chunk_index := p.1.chunk_index
      document_name := document_name
      indexed_at := timestamp }

/-! ### Helper lemmas -/

theorem map_eq_replicate_of_forall {α β : Type} (l : List α) (f : α → β) (c : β)
    (h : ∀ x ∈ l, f x = c) : l.map f = List.replicate l.length c := by
  induction l with
  | nil => rfl
  | cons a t ih =>
    simp only [List.map_cons, List.length_cons, List.replicate_succ]
    exact congrArg₂ List.cons (h a (List.mem_cons_self a t))
      (ih fun x hx => h x (List.mem_cons_of_mem a hx))

theorem emitChunks_length (ft : List Char) (bs : List (Nat × Nat × Nat)) (total : Nat) :
    ∀ (cts : List (List Char)) (i cp : Nat),
      (emitChunks ft bs total cts i cp).length = cts.length
  | [], _, _ => rfl
  | _ :: rest, i, cp => by
    simp only [emitChunks, List.length_cons]
    exact congrArg Nat.succ (emitChunks_length ft bs total rest (i + 1) _)

theorem emitChunks_map_index (ft : List Char) (bs : List (Nat × Nat × Nat)) (total : Nat) :
    ∀ (cts : List (List Char)) (i cp : Nat),
      (emitChunks ft bs total cts i cp).map (fun c => c.chunk_index) = List.range' i cts.length
  | [], _, _ => rfl
  | _ :: rest, i, cp => by
    simp only [emitChunks, List.map_cons, List.length_cons, List.range'_succ]
    exact congrArg _ (emitChunks_map_index ft bs total rest (i + 1) _)

theorem emitChunks_map_total (ft : List Char) (bs : List (Nat × Nat × Nat)) (total : Nat) :
    ∀ (cts : List (List Char)) (i cp : Nat),
      (emitChunks ft bs total cts i cp).map (fun c => c.total_chunks)
        = List.replicate cts.length total
  | [], _, _ => rfl
  | _ :: rest, i, cp => by
    simp only [emitChunks, List.map_cons, List.length_cons, List.replicate_succ]
    exact congrArg₂ List.cons rfl (emitChunks_map_total ft bs total rest (i + 1) _)

theorem emitChunks_map_section (ft : List Char) (bs : List (Nat × Nat × Nat)) (total : Nat) :
    ∀ (cts : List (List Char)) (i cp : Nat),
      (emitChunks ft bs total cts i cp).map (fun c => c.section_title)
        = List.replicate cts.length none
  | [], _, _ => rfl
  | _ :: rest, i, cp => by
    simp only [emitChunks, List.map_cons, List.length_cons, List.replicate_succ]
    exact congrArg₂ List.cons rfl (emitChunks_map_section ft bs total rest (i + 1) _)

theorem emitChunks_map_pages (ft : List Char) (bs : List (Nat × Nat × Nat)) (total : Nat) :
    ∀ (cts : List (List Char)) (i cp : Nat),
      (emitChunks ft bs total cts i cp).map (fun c => c.page_numbers)
        = (locateSpans ft cts cp).map (specPageNumbers bs)
  | [], _, _ => rfl
  | _ :: rest, i, cp => by
    simp only [emitChunks, locateSpans, List.map_cons]
    exact congrArg₂ _ rfl (emitChunks_map_pages ft bs total rest (i + 1) _)

theorem buildB_fst_length : ∀ (pages : List (Nat × List Char)) (acc : List Char),
    acc.length ≤ (buildB pages acc).1.length
  | [], _ => le_refl _
  | (pn, t) :: rest, acc => by
    by_cases ht : t.isEmpty
    · simpa [buildB, ht] using buildB_fst_length rest acc
    · have h := buildB_fst_length rest (acc ++ t ++ ['\n', '\n'])
      simp only [buildB, if_neg ht]
      simp only [List.length_append] at h
      omega

theorem buildB_entry_bounds : ∀ (pages : List (Nat × List Char)) (acc : List Char),
    ∀ e ∈ (buildB pages acc).2, e.1 < e.2.1 ∧ e.2.1 ≤ (buildB pages acc).1.length
  | [], _ => by simp [buildB]
  | (pn, t) :: rest, acc => by
    by_cases ht : t.isEmpty
    · simpa [buildB, ht] using buildB_entry_bounds rest acc
    · simp only [buildB, if_neg ht]
      refine List.forall_mem_cons.mpr ⟨⟨?_, buildB_fst_length rest _⟩, ?_⟩
      · simp only [List.length_append, List.length_cons, List.length_nil]
        omega
      · exact buildB_entry_bounds rest _

theorem buildB_mem : ∀ (pages : List (Nat × List Char)) (acc : List Char)
    (pn : Nat) (t : List Char), (pn, t) ∈ pages → ¬t.isEmpty = true →
    ∃ s e, (s, e, pn) ∈ (buildB pages acc).2
  | [], _, _, _, h, _ => absurd h (List.not_mem_nil _)
  | (pn0, t0) :: rest, acc, pn, t, h, ht => by
    by_cases ht0 : t0.isEmpty
    · rcases List.mem_cons.mp h with heq | hmem
      · obtain ⟨rfl, rfl⟩ := Prod.mk.injEq .. |>.mp heq
        exact absurd ht0 ht
      · simpa [buildB, ht0] using buildB_mem rest acc pn t hmem ht
    · rcases List.mem_cons.mp h with heq | hmem
      · obtain ⟨rfl, rfl⟩ := Prod.mk.injEq .. |>.mp heq
        refine ⟨acc.length, (acc ++ t ++ ['\n', '\n']).length, ?_⟩
        simp only [buildB, if_neg ht0]
        exact List.mem_cons_self _ _
      · obtain ⟨s, e, hse⟩ := buildB_mem rest (acc ++ t0 ++ ['\n', '\n']) pn t hmem ht
        refine ⟨s, e, ?_⟩
        simp only [buildB, if_neg ht0]
        exact List.mem_cons_of_mem _ hse
theorem buildB_map_page : ∀ (pages : List (Nat × List Char)) (acc : List Char),
    (buildB pages acc).2.map (fun b => b.2.2)
      = (pages.filter fun p => !p.2.isEmpty).map Prod.fst
  | [], _ => rfl
  | (pn, t) :: rest, acc => by
    by_cases ht : t.isEmpty
    · simpa [buildB, List.filter_cons, ht] using buildB_map_page rest acc
    · simp only [buildB, ht, if_neg, List.map_cons, List.filter_cons]
      simp only [ht, Bool.not_false, if_true]
      exact congrArg₂ List.cons rfl (buildB_map_page rest _)

theorem specPageNumbers_ne_nil (bs : List (Nat × Nat × Nat)) (sp : Nat × Nat) :
    specPageNumbers bs sp ≠ [] := by
  unfold specPageNumbers
  dsimp only
  split
  · simp
  · assumption

theorem boundary_pages_sublist (pages : List (Nat × List Char)) :
    ((buildBoundaries pages).2.map fun b => b.2.2).Sublist (pages.map Prod.fst) := by
  rw [buildBoundaries, buildB_map_page]
  exact (List.filter_sublist pages).map Prod.fst

theorem specPageNumbers_pairwise (pages : List (Nat × List Char)) (sp : Nat × Nat)
    (hasc : (pages.map Prod.fst).Pairwise (· < ·)) :
    (specPageNumbers (buildBoundaries pages).2 sp).Pairwise (· < ·) := by
  unfold specPageNumbers
  dsimp only
  split
  · simp
  · have h1 : ((buildBoundaries pages).2.filter
        fun b => decide (sp.1 < b.2.1 ∧ b.1 < sp.2)).Sublist (buildBoundaries pages).2 :=
      List.filter_sublist _
    have h2 := h1.map (fun (b : Nat × Nat × Nat) => b.2.2)
    exact List.Pairwise.sublist (h2.trans (boundary_pages_sublist pages)) hasc

theorem splitSpecGo_length_le (chunkSize overlap : Nat) :
    ∀ (fuel : Nat) (s : List Char), ∀ p ∈ splitSpecGo chunkSize overlap fuel s,
      p.length ≤ chunkSize
  | _, [] => by simp [splitSpecGo]
  | 0, _ :: _ => by simp [splitSpecGo]
  | fuel + 1, c :: cs => by
    intro p hp
    simp only [splitSpecGo] at hp
    split at hp
    · next hle => rcases List.mem_singleton.mp hp with rfl; exact hle
    · next hgt =>
      rcases List.mem_cons.mp hp with rfl | hp
      · exact le_trans (List.length_take_le _ _) (min_le_right _ _)
      · exact splitSpecGo_length_le chunkSize overlap fuel _ p hp

theorem splitSpec_length_le (chunkSize overlap : Nat) (s : List Char) :
    ∀ p ∈ splitSpec chunkSize overlap s, p.length ≤ chunkSize :=
  splitSpecGo_length_le chunkSize overlap s.length s

theorem emitChunks_map_content (ft : List Char) (bs : List (Nat × Nat × Nat)) (total : Nat) :
    ∀ (cts : List (List Char)) (i cp : Nat),
      (emitChunks ft bs total cts i cp).map (fun c => c.content) = cts
  | [], _, _ => rfl
  | _ :: rest, i, cp => by
    simp only [emitChunks, List.map_cons]
    exact congrArg₂ List.cons rfl (emitChunks_map_content ft bs total rest (i + 1) _)

theorem gebGo_all_success {E : Type} (f : String → E)
    (provider : Nat → List String → Option (List E))
    (hp : ∀ j b, provider j b = some (b.map f)) (batchSize : Nat) (hbs : 0 < batchSize) :
    ∀ (fuel : Nat) (texts : List String) (i : Nat), texts.length ≤ fuel →
      (gebGo provider batchSize fuel texts i).1 = some (texts.map f)
  | fuel, [], _, _ => by cases fuel <;> rfl
  | 0, t :: ts, _, hf => absurd hf (by simp)
  | fuel + 1, t :: ts, i, hf => by
    have hlt : ((t :: ts).drop batchSize).length ≤ fuel := by
      simp only [List.length_drop]
      have : 0 < (t :: ts).length := by simp
      simp only [List.length_cons] at hf ⊢
      omega
    have ih := gebGo_all_success f provider hp batchSize hbs fuel ((t :: ts).drop batchSize)
      (i + 1) hlt
    simp only [gebGo, hp, ih, Option.map_some']
    rw [← List.map_append, List.take_append_drop]

theorem get_embeddings_batch_all_success {E : Type} (f : String → E)
    (provider : Nat → List String → Option (List E))
    (hp : ∀ j b, provider j b = some (b.map f)) (texts : List String) (batchSize i : Nat)
    (hbs : 0 < batchSize) :
    (EmbeddingsClient.get_embeddings_batch provider texts batchSize i).1
      = some (texts.map f) := by
  unfold EmbeddingsClient.get_embeddings_batch
  rw [if_neg (Nat.pos_iff_ne_zero.mp hbs)]
  exact gebGo_all_success f provider hp batchSize hbs texts.length texts i (le_refl _)

theorem waitExponential_bounds (attempt : Nat) :
    2 ≤ waitExponential 1 2 10 attempt ∧ waitExponential 1 2 10 attempt ≤ 10 := by
  unfold waitExponential
  constructor
  · exact le_max_left _ _
  · exact max_le (by norm_num) (min_le_right _ _)

theorem retryGo_waits_bounds {A : Type} (call : Nat → Option A) :
    ∀ (remaining attempt : Nat), ∀ w ∈ (retryGo call remaining attempt).2,
      2 ≤ w ∧ w ≤ 10
  | 0, _ => by simp [retryGo]
  | remaining + 1, attempt => by
    intro w hw
    simp only [retryGo] at hw
    split at hw
    · simp at hw
    · split at hw
      · simp at hw
      · rcases List.mem_cons.mp hw with rfl | hw
        · exact waitExponential_bounds attempt
        · exact retryGo_waits_bounds call remaining (attempt + 1) w hw

theorem retryGo_waits_length {A : Type} (call : Nat → Option A) :
    ∀ (remaining attempt : Nat),
      (retryGo call remaining attempt).2.length + 1 ≤ max remaining 1
  | 0, _ => by simp [retryGo]
  | remaining + 1, attempt => by
    simp only [retryGo]
    split
    · simp
    · split
      · simp
      · next hr =>
        have ih := retryGo_waits_length call remaining (attempt + 1)
        have hrem : 0 < remaining := Nat.pos_of_ne_zero hr
        simp only [List.length_cons]
        omega

theorem retryGo_all_fail {A : Type} (call : Nat → Option A) (hfail : ∀ k, call k = none) :
    ∀ (remaining attempt : Nat), (retryGo call remaining attempt).1 = none
  | 0, _ => rfl
  | remaining + 1, attempt => by
    simp only [retryGo, hfail]
    split
    · rfl
    · exact retryGo_all_fail call hfail remaining (attempt + 1)

theorem validate_config_foldl (env : String → Option String) :
    ∀ (l : List (String × String)) (init : List String),
      l.foldl (fun errors p =>
        if (env p.1).getD ("") = "" then errors ++ ["Missing " ++ p.1 ++ ": " ++ p.2]
        else errors) init
      = init ++ (l.filter fun p => decide ((env p.1).getD ("") = "")).map
          (fun p => "Missing " ++ p.1 ++ ": " ++ p.2)
  | [], init => by simp
  | p :: rest, init => by
    by_cases h : (env p.1).getD ("") = ""
    · simp only [List.foldl_cons, if_pos h, List.filter_cons, h]
      rw [validate_config_foldl env rest]
      simp
    · simp only [List.foldl_cons, if_neg h, List.filter_cons, h]
      rw [validate_config_foldl env rest]
      simp

/-! ### Claim theorems -/

/-- C1: for every query, if hybrid search returns zero matches, query()
returns a RAGResponse whose answer is the fixed not-found message,
whose sources list is empty, and whose confidence is "low", and the
generation service is not invoked for that query (invocation count
0). -/
theorem C1_empty_retrieval_short_circuit (generate : String → String → String)
    (userQuery : String) :
    RAGPipeline.query generate userQuery []
      = ({ answer := notFoundAnswer, sources := [], confidence := "low" }, 0) := rfl

theorem query_confidence_cons (generate : String → String → String) (userQuery : String)
    (c : RetrievedMatch) (rest : List RetrievedMatch) :
    (RAGPipeline.query generate userQuery (c :: rest)).1.confidence
      = if c.score > mkRat 3 100 then "high"
        else if c.score > mkRat 2 100 then "medium"
        else "low" := by
  simp [RAGPipeline.query]

/-- C2: for every non-empty list of retrieved matches, the confidence
label of the RAGResponse returned by query() is determined solely by
the top match score via the fixed thresholds 0.03 and 0.02: a score
strictly greater than 0.03 yields "high", a score strictly greater
than 0.02 but not greater than 0.03 yields "medium", and any other
score yields "low" (the particular instances 0.05, 0.025 and 0.01 are
checked in the witness theorem). -/
theorem C2_confidence_thresholds (generate : String → String → String) (userQuery : String)
    (c : RetrievedMatch) (rest : List RetrievedMatch) :
    (mkRat 3 100 < c.score →
      (RAGPipeline.query generate userQuery (c :: rest)).1.confidence = "high") ∧
    (mkRat 2 100 < c.score → c.score ≤ mkRat 3 100 →
      (RAGPipeline.query generate userQuery (c :: rest)).1.confidence = "medium") ∧
    (c.score ≤ mkRat 2 100 →
      (RAGPipeline.query generate userQuery (c :: rest)).1.confidence = "low") := by
  rw [query_confidence_cons]
  refine ⟨fun h => if_pos h, fun h1 h2 => ?_, fun h => ?_⟩
  · rw [if_neg (not_lt.mpr h2), if_pos h1]
  · rw [if_neg (not_lt.mpr (h.trans (by norm_num))), if_neg (not_lt.mpr h)]

theorem C2_witness :
    (RAGPipeline.query (fun _ _ => "ans") "q"
      [⟨"i", "t", [1], "s", mkRat 1 20⟩]).1.confidence = "high" ∧
    (RAGPipeline.query (fun _ _ => "ans") "q"
      [⟨"i", "t", [1], "s", mkRat 1 40⟩]).1.confidence = "medium" ∧
    (RAGPipeline.query (fun _ _ => "ans") "q"
      [⟨"i", "t", [1], "s", mkRat 1 100⟩]).1.confidence = "low" :=
  ⟨(C2_confidence_thresholds (fun _ _ => "ans") "q" ⟨"i", "t", [1], "s", mkRat 1 20⟩ []).1
      (by decide),
   (C2_confidence_thresholds (fun _ _ => "ans") "q" ⟨"i", "t", [1], "s", mkRat 1 40⟩ []).2.1
      (by decide) (by decide),
   (C2_confidence_thresholds (fun _ _ => "ans") "q" ⟨"i", "t", [1], "s", mkRat 1 100⟩ []).2.2
      (by decide)⟩

/-- C4: for every document, the chunks emitted by chunk_document carry
chunk_index values that are strictly increasing and contiguous
starting from 0 (the indices are exactly `List.range` of the count),
and every emitted chunk carries total_chunks equal to the number of
chunks actually emitted. -/
theorem C4_chunk_index_contiguous (split : List Char → List (List Char))
    (pages : List (Nat × List Char)) :
    (PDFProcessor.chunk_document split pages).map (fun c => c.chunk_index)
      = List.range (PDFProcessor.chunk_document split pages).length ∧
    (PDFProcessor.chunk_document split pages).map (fun c => c.total_chunks)
      = List.replicate (PDFProcessor.chunk_document split pages).length
          (PDFProcessor.chunk_document split pages).length := by
  unfold PDFProcessor.chunk_document
  dsimp only
  rw [emitChunks_length, emitChunks_map_index, emitChunks_map_total, List.range_eq_range']
  exact ⟨rfl, rfl⟩

theorem chunk_document_section_none (split : List Char → List (List Char))
    (pages : List (Nat × List Char)) :
    ∀ c ∈ PDFProcessor.chunk_document split pages, c.section_title = none := by
  intro c hc
  have h1 : c.section_title
      ∈ (PDFProcessor.chunk_document split pages).map (fun c => c.section_title) :=
    List.mem_map_of_mem _ hc
  unfold PDFProcessor.chunk_document at h1
  dsimp only at h1
  rw [emitChunks_map_section] at h1
  exact List.eq_of_mem_replicate h1

/-- C10: every chunk emitted by chunk_document has section_title equal
to None, and index_chunks stores it as the empty string in each
uploaded index document: the optional section title is never populated
by any operation of this pipeline. -/
theorem C10_section_title_never_populated {E : Type} (split : List Char → List (List Char))
    (pages : List (Nat × List Char)) (embeddings : List E)
    (document_name timestamp : String) :
    (PDFProcessor.chunk_document split pages).map (fun c => c.section_title)
      = List.replicate (PDFProcessor.chunk_document split pages).length none ∧
    (SearchService.index_chunks (PDFProcessor.chunk_document split pages) embeddings
        document_name timestamp).map (fun d => d.section_title)
      = List.replicate (SearchService.index_chunks (PDFProcessor.chunk_document split pages)
          embeddings document_name timestamp).length ("") := by
  constructor
  · unfold PDFProcessor.chunk_document
    dsimp only
    rw [emitChunks_map_section, emitChunks_length]
  · apply map_eq_replicate_of_forall
    intro d hd
    unfold SearchService.index_chunks at hd
    obtain ⟨p, hp, rfl⟩ := List.mem_map.mp hd
    have hchunk : p.1 ∈ PDFProcessor.chunk_document split pages := (List.of_mem_zip hp).1
    have hnone := chunk_document_section_none split pages p.1 hchunk
    simp [hnone]

/-- C6: for every document and every configured target chunk size, no
chunk emitted by chunk_document (under the spec-modelled splitter) has
a content length exceeding the target chunk size; the boundary-search
tolerance of this splitter is zero since it hard-cuts at the target
size as last resort. -/
theorem C6_content_length_bounded (chunkSize overlap : Nat)
    (pages : List (Nat × List Char)) :
    ∀ c ∈ PDFProcessor.chunk_document (splitSpec chunkSize overlap) pages,
      c.content.length ≤ chunkSize := by
  intro c hc
  have h1 : c.content
      ∈ (PDFProcessor.chunk_document (splitSpec chunkSize overlap) pages).map
          (fun c => c.content) :=
    List.mem_map_of_mem _ hc
  unfold PDFProcessor.chunk_document at h1
  dsimp only at h1
  rw [emitChunks_map_content] at h1
  exact splitSpec_length_le chunkSize overlap _ _ h1

/-- Concrete two-page document used by witnesses and the C5
counterexample: page 1 contains an internal paragraph break. -/
def pagesX : List (Nat × List Char) := [(1, "aa\n\naa".toList), (2, "aa".toList)]

theorem C6_witness :
    (⟨chunkId 0, "aa\n\naa".toList, [1], none, 0, 2⟩ : DocumentChunk).content.length ≤ 6 :=
  C6_content_length_bounded 6 0 pagesX _ (by decide)

/-- C3: for every emitted chunk with located half-open span
[chunk_start, chunk_end), its page_numbers is exactly the list of
pages whose buffer range [page_start, page_end) satisfies chunk_start
< page_end and chunk_end > page_start (the list `specPageNumbers`
written from the claim wording, evaluated at the located spans), in
ascending page order (given that the extracted pages carry strictly
increasing page numbers, as extract_text_pypdf and
extract_text_pdfplumber number them 1, 2, ...), and defaulting to [1]
when empty, so no chunk is ever emitted with an empty page_numbers
list. -/
theorem C3_page_numbers (split : List Char → List (List Char))
    (pages : List (Nat × List Char))
    (hasc : (pages.map Prod.fst).Pairwise (· < ·)) :
    (PDFProcessor.chunk_document split pages).map (fun c => c.page_numbers)
      = (locateSpans (buildBoundaries pages).1 (split (buildBoundaries pages).1) 0).map
          (specPageNumbers (buildBoundaries pages).2) ∧
    ∀ c ∈ PDFProcessor.chunk_document split pages,
      c.page_numbers.Pairwise (· < ·) ∧ c.page_numbers ≠ [] := by
  have hmap : (PDFProcessor.chunk_document split pages).map (fun c => c.page_numbers)
      = (locateSpans (buildBoundaries pages).1 (split (buildBoundaries pages).1) 0).map
          (specPageNumbers (buildBoundaries pages).2) := by
    unfold PDFProcessor.chunk_document
    dsimp only
    rw [emitChunks_map_pages]
  refine ⟨hmap, ?_⟩
  intro c hc
  have h1 : c.page_numbers
      ∈ (PDFProcessor.chunk_document split pages).map (fun c => c.page_numbers) :=
    List.mem_map_of_mem _ hc
  rw [hmap] at h1
  obtain ⟨sp, hsp, hpn⟩ := List.mem_map.mp h1
  rw [← hpn]
  exact ⟨specPageNumbers_pairwise pages sp hasc, specPageNumbers_ne_nil _ _⟩

theorem C3_witness :
    (PDFProcessor.chunk_document (splitSpec 6 0) pagesX).map (fun c => c.page_numbers)
      = (locateSpans (buildBoundaries pagesX).1 (splitSpec 6 0 (buildBoundaries pagesX).1) 0).map
          (specPageNumbers (buildBoundaries pagesX).2) :=
  (C3_page_numbers (splitSpec 6 0) pagesX (by decide)).1

theorem C5_counterexample :
    ((2, "aa".toList) ∈ pagesX ∧ "aa".toList ≠ []) ∧
    (PDFProcessor.chunk_document (splitSpec 6 0) pagesX).map (fun c => c.page_numbers)
      = [[1], [1]] := by decide

/-- C5 (amended): provided the located chunk spans jointly cover every
character position of the combined buffer, every page that contributed
non-empty extracted text appears in the page_numbers of at least one
emitted chunk; and pages with empty extracted text contribute no entry
to the page boundary table (the pages of the boundary table are
exactly the non-empty pages, in order). -/
theorem C5_amended_page_coverage (split : List Char → List (List Char))
    (pages : List (Nat × List Char))
    (hcover : ∀ i, i < (buildBoundaries pages).1.length →
      ∃ sp ∈ locateSpans (buildBoundaries pages).1 (split (buildBoundaries pages).1) 0,
        sp.1 ≤ i ∧ i < sp.2) :
    (∀ pn t, (pn, t) ∈ pages → t ≠ [] →
      ∃ c ∈ PDFProcessor.chunk_document split pages, pn ∈ c.page_numbers) ∧
    (buildBoundaries pages).2.map (fun b => b.2.2)
      = (pages.filter fun p => !p.2.isEmpty).map Prod.fst := by
  refine ⟨?_, buildB_map_page pages []⟩
  intro pn t hmem ht
  have htb : ¬t.isEmpty = true := by
    simp only [List.isEmpty_iff]
    exact ht
  obtain ⟨s, e, hse⟩ := buildB_mem pages [] pn t hmem htb
  have hbounds := buildB_entry_bounds pages [] (s, e, pn) hse
  have hslt : s < (buildBoundaries pages).1.length :=
    lt_of_lt_of_le hbounds.1 hbounds.2
  obtain ⟨sp, hsp, hsp1, hsp2⟩ := hcover s hslt
  have hpred : decide (sp.1 < e ∧ s < sp.2) = true := by
    refine decide_eq_true_eq.mpr ⟨lt_of_le_of_lt hsp1 hbounds.1, hsp2⟩
  have hfil : (s, e, pn) ∈ (buildBoundaries pages).2.filter
      fun b => decide (sp.1 < b.2.1 ∧ b.1 < sp.2) :=
    List.mem_filter.mpr ⟨hse, hpred⟩
  have hps : pn ∈ ((buildBoundaries pages).2.filter
      fun b => decide (sp.1 < b.2.1 ∧ b.1 < sp.2)).map fun b => b.2.2 :=
    List.mem_map_of_mem _ hfil
  have hpn : pn ∈ specPageNumbers (buildBoundaries pages).2 sp := by
    unfold specPageNumbers
    dsimp only
    rw [if_neg (List.ne_nil_of_mem hps)]
    exact hps
  have hspec : specPageNumbers (buildBoundaries pages).2 sp
      ∈ (PDFProcessor.chunk_document split pages).map (fun c => c.page_numbers) := by
    unfold PDFProcessor.chunk_document
    dsimp only
    rw [emitChunks_map_pages]
    exact List.mem_map_of_mem _ hsp
  obtain ⟨c, hc, hcpn⟩ := List.mem_map.mp hspec
  exact ⟨c, hc, by rw [hcpn]; exact hpn⟩

/-- Concrete one-page document whose single located chunk span covers
the whole buffer. -/
def pagesW : List (Nat × List Char) := [(1, "ab".toList)]

theorem C5_witness :
    (buildBoundaries pagesW).2.map (fun b => b.2.2)
      = (pagesW.filter fun p => !p.2.isEmpty).map Prod.fst :=
  (C5_amended_page_coverage (splitSpec 4 0) pagesW (by decide)).2

/-- C7: for every list of input texts and every positive batch size,
including sizes that force multiple sub-batches, get_embeddings_batch
returns exactly one embedding per input text and the embedding at
position i corresponds to the text at position i, under the
hypothesis that each provider call returns one embedding per input
preserving input order (`provider j b = some (b.map f)`). -/
theorem C7_batch_order_preserving {E : Type} (f : String → E)
    (provider : Nat → List String → Option (List E)) (texts : List String)
    (batchSize i : Nat) (hbs : 0 < batchSize)
    (hp : ∀ j b, provider j b = some (b.map f)) :
    (EmbeddingsClient.get_embeddings_batch provider texts batchSize i).1
      = some (texts.map f) ∧
    ((EmbeddingsClient.get_embeddings_batch provider texts batchSize i).1.getD []).length
      = texts.length ∧
    ∀ k : Nat,
      ((EmbeddingsClient.get_embeddings_batch provider texts batchSize i).1.getD [])[k]?
        = texts[k]?.map f := by
  have h := get_embeddings_batch_all_success f provider hp texts batchSize i hbs
  refine ⟨h, ?_, ?_⟩
  · rw [h]
    simp
  · intro k
    rw [h]
    simp

theorem C7_witness :
    (EmbeddingsClient.get_embeddings_batch (fun _ b => some (b.map String.length))
      ["a", "bb", "ccc"] 2 0).1 = some (["a", "bb", "ccc"].map String.length) :=
  (C7_batch_order_preserving String.length (fun _ b => some (b.map String.length))
    ["a", "bb", "ccc"] 2 0 (by decide) (fun _ _ => rfl)).1

/-- Provider that fails transiently on its first invocation and
succeeds on every later one. -/
def provX : Nat → List String → Option (List Nat) :=
  fun i b => if i = 0 then none else some (b.map fun _ => 0)

theorem C8_counterexample :
    EmbeddingsClient.get_embeddings_batch provX ["t"] 16 0 = (none, 1) ∧
    (retryCall 3 (fun attempt => provX (attempt - 1) ["t"])).1 = some [0] := by decide

/-- C8 (amended): every transient failure of a single-text embedding
call is retried with exponential backoff — at most 3 attempts (hence
at most 2 waits), every wait between 2 and 10 seconds — after which
the failure surfaces as fatal for that call; a failed batch embedding
call is not retried (the first failing sub-batch call immediately
surfaces as fatal after exactly one provider invocation), and a failed
generation call is never retried automatically by the pipeline (the
generation service is invoked at most once per query). -/
theorem C8_amended_retry_policy (E : Type) :
    (∀ call : Nat → Option E, (EmbeddingsClient.get_embedding call).2.length + 1 ≤ 3) ∧
    (∀ (call : Nat → Option E) w, w ∈ (EmbeddingsClient.get_embedding call).2 →
      2 ≤ w ∧ w ≤ 10) ∧
    (∀ call : Nat → Option E, (∀ k, call k = none) →
      (EmbeddingsClient.get_embedding call).1 = none) ∧
    (∀ (provider : Nat → List String → Option (List E)) (t : String) (ts : List String)
      (batchSize i : Nat), 0 < batchSize →
      provider i ((t :: ts).take batchSize) = none →
      EmbeddingsClient.get_embeddings_batch provider (t :: ts) batchSize i = (none, 1)) ∧
    (∀ (generate : String → String → String) (q : String) (chunks : List RetrievedMatch),
      (RAGPipeline.query generate q chunks).2 ≤ 1) := by
  refine ⟨?_, ?_, ?_, ?_, ?_⟩
  · intro call
    have h := retryGo_waits_length call 3 1
    simpa using h
  · intro call w hw
    exact retryGo_waits_bounds call 3 1 w hw
  · intro call hfail
    exact retryGo_all_fail call hfail 3 1
  · intro provider t ts batchSize i hbs hfail
    unfold EmbeddingsClient.get_embeddings_batch
    rw [if_neg (Nat.pos_iff_ne_zero.mp hbs)]
    simp only [List.length_cons, gebGo, hfail]
  · intro generate q chunks
    cases chunks with
    | nil => exact Nat.zero_le 1
    | cons c rest =>
      simp [RAGPipeline.query]

theorem C8_witness :
    (EmbeddingsClient.get_embedding (fun _ => (none : Option (List ℚ)))).1 = none :=
  (C8_amended_retry_policy (List ℚ)).2.2.1 (fun _ => none) (fun _ => rfl)

theorem C9_counterexample :
    required_vars.all (fun p => ((fun _ : String => some ("")) p.1).isSome) = true ∧
    validate_config (fun _ => some ("")) ≠ [] := by decide

/-- C9 (amended): validate_config returns one error entry for every
required environment variable that is absent or set to the empty
string (Python truthiness of `os.getenv`), collected together in a
single list rather than failing on the first; it returns the empty
list exactly when every required variable is set to a non-empty
value; and a non-empty error list blocks pipeline construction, so no
external service is contacted (load_pipeline returns the full error
list without building the pipeline). -/
theorem C9_amended_validation (env : String → Option String) :
    validate_config env
      = (required_vars.filter fun p => decide ((env p.1).getD ("") = "")).map
          (fun p => "Missing " ++ p.1 ++ ": " ++ p.2) ∧
    (validate_config env = [] ↔ ∀ p ∈ required_vars, (env p.1).getD ("") ≠ "") ∧
    (validate_config env ≠ [] → load_pipeline env = Except.error (validate_config env)) := by
  have hchar : validate_config env
      = (required_vars.filter fun p => decide ((env p.1).getD ("") = "")).map
          (fun p => "Missing " ++ p.1 ++ ": " ++ p.2) := by
    unfold validate_config
    rw [validate_config_foldl env required_vars []]
    simp
  refine ⟨hchar, ?_, ?_⟩
  · rw [hchar]
    rw [List.map_eq_nil_iff, List.filter_eq_nil_iff]
    constructor
    · intro h p hp
      have := h p hp
      simpa using this
    · intro h p hp
      simpa using h p hp
  · intro hne
    unfold load_pipeline
    rw [if_neg hne]

theorem C9_witness :
    load_pipeline (fun _ => none) = Except.error (validate_config (fun _ => none)) :=
  (C9_amended_validation (fun _ => none)).2.2 (by decide)
